import Mathlib

/-!
Verification of the SignVision-WebApp training pipeline
(`collect_data.py`, `train_model.py`, `convert_to_onnx.py`).

The Python source is shallowly embedded: numeric coordinates are modelled
as rationals, numpy arrays as lists of rationals together with a dtype tag,
and the stateful collector / training loops as explicit state-passing
functions.  Definitions keep the source's names and structure; spec-side
reference definitions (used to compare code behaviour against the
natural-language specification) carry a `Spec` suffix.
-/

namespace SignVision

/-- A 3-D landmark `(x, y, z)` in normalized image coordinates, as produced
by the MediaPipe hand / pose landmarkers. -/
structure Landmark where
  x : ℚ
  y : ℚ
  z : ℚ
deriving DecidableEq, Repr, Inhabited

/-- Numpy dtypes that occur in the pipeline.  `np.zeros` and fresh float
arrays are `float64`; `astype(np.float32)` converts to `float32`. -/
inductive DType where
  | float32
  | float64
deriving DecidableEq, Repr

/-- A 1-D numpy array: its numeric contents plus its dtype. -/
structure NpVector where
  data : List ℚ
  dtype : DType
deriving DecidableEq, Repr

/-- `arr.astype(d)`: same contents, converted dtype. -/
def NpVector.astype (v : NpVector) (d : DType) : NpVector :=
  ⟨v.data, d⟩

/-! ### Configuration constants (`collect_data.py`, top of file) -/

/-- `SEQUENCE_LENGTH = 30`: frames per recorded sequence. -/
def SEQUENCE_LENGTH : Nat := 30

/-- `FPS_TARGET = 15`: target recording frame rate. -/
def FPS_TARGET : Nat := 15

/-- `HAND_FEATURES = 63`: 21 landmarks × 3 coords per hand. -/
def HAND_FEATURES : Nat := 63

/-- `POSE_LANDMARKS_COUNT = 11`: nose, shoulders, elbows, wrists, hips. -/
def POSE_LANDMARKS_COUNT : Nat := 11

/-- `POSE_FEATURES = POSE_LANDMARKS_COUNT * 3 if USE_POSE else 0`.
The compile-time configuration flag `USE_POSE` is abstracted as the
parameter `usePose` (the shipped source sets it to `True`). -/
def POSE_FEATURES (usePose : Bool) : Nat :=
  if usePose then POSE_LANDMARKS_COUNT * 3 else 0

/-- `TOTAL_FEATURES = HAND_FEATURES * 2 + POSE_FEATURES` (159 with pose). -/
def TOTAL_FEATURES (usePose : Bool) : Nat :=
  HAND_FEATURES * 2 + POSE_FEATURES usePose

/-- `POSE_INDICES`: the fixed list of retained pose landmark indices. -/
def POSE_INDICES : List Nat := [0, 11, 12, 13, 14, 15, 16, 23, 24, 25, 26]

/-- The epsilon `1e-6` used by the hand normalizer's scale guard. -/
def NORM_EPS : ℚ := 1 / 1000000

/-! ### Landmark Normalizer (`normalize_hand_landmarks`) -/

/-- Componentwise difference of two landmarks (`coords -= base`). -/
def lmSub (a b : Landmark) : Landmark :=
  ⟨a.x - b.x, a.y - b.y, a.z - b.z⟩

/-- Largest absolute coordinate of one landmark (row-wise piece of
`np.max(np.abs(coords))`). -/
def lmAbsMax (a : Landmark) : ℚ :=
  max |a.x| (max |a.y| |a.z|)

/-- Componentwise division by a scalar (`coords /= max_val`). -/
def lmScaleDiv (a : Landmark) (m : ℚ) : Landmark :=
  ⟨a.x / m, a.y / m, a.z / m⟩

/-- One landmark's `(x, y, z)` triple, the row layout used by `flatten`. -/
def lmFlatten (a : Landmark) : List ℚ :=
  [a.x, a.y, a.z]

/-- `coords - coords[0]`: every landmark translated so that landmark 0
(the wrist) becomes the origin. -/
def translated (lms : List Landmark) : List Landmark :=
  lms.map fun lm => lmSub lm lms.headI

/-- `max_val = np.max(np.abs(coords))` over the translated coordinates.
For the nonempty landmark lists the code runs on, the fold below equals
numpy's maximum because every `lmAbsMax` is nonnegative. -/
def max_val (lms : List Landmark) : ℚ :=
  ((translated lms).map lmAbsMax).foldl max 0

/-- `normalize_hand_landmarks(landmarks)` from `collect_data.py`:
wrist-centred, scale-invariant 63-vector; all zeros for an absent hand. -/
def normalize_hand_landmarks (landmarks : Option (List Landmark)) : List ℚ :=
  match landmarks with
  | none => List.replicate HAND_FEATURES 0
  | some lms =>
    let coords := translated lms
    let m := max_val lms
    let scaled := if NORM_EPS < m then coords.map (fun c => lmScaleDiv c m) else coords
    scaled.flatMap lmFlatten

/-! ### Pose Subset Extractor (`extract_pose_subset`) -/

/-- `extract_pose_subset(pose_landmarks)` from `collect_data.py`:
the 11 retained pose landmarks flattened to coordinates, zero triples for
out-of-range indices, zeros of length `POSE_FEATURES` if the pose is
absent. -/
def extract_pose_subset (usePose : Bool) (pose_landmarks : Option (List Landmark)) : List ℚ :=
  match pose_landmarks with
  | none => List.replicate (POSE_FEATURES usePose) 0
  | some lms =>
    (POSE_INDICES.take POSE_LANDMARKS_COUNT).flatMap fun idx =>
      match lms.get? idx with
      | some lm => [lm.x, lm.y, lm.z]
      | none => [0, 0, 0]

/-! ### Feature Vector Assembler (`extract_all_features`) -/

/-- One detected hand: its handedness category name
(`hand_result.handedness[i][0].category_name`) and its landmark list
(`hand_result.hand_landmarks[i]`). -/
structure HandDetection where
  category_name : String
  landmarks : List Landmark
deriving DecidableEq, Repr

/-- The hand landmarker's result: the parallel `handedness` /
`hand_landmarks` lists, zipped into one detection list. -/
structure HandResult where
  detections : List HandDetection
deriving DecidableEq, Repr

/-- The pose landmarker's result: a (possibly empty) list of pose
landmark lists; the code uses `pose_landmarks[0]` when nonempty. -/
structure PoseResult where
  pose_landmarks : List (List Landmark)
deriving DecidableEq, Repr

/-- `handedness[0].category_name == "Left"` as a Boolean test. -/
def isLeftLabel (d : HandDetection) : Bool :=
  d.category_name == "Left"

/-- The hand-assignment loop of `extract_all_features`: a detection
labelled `"Left"` is stored in the *right*-hand slot (mirrored video) and
any other label in the left-hand slot; later detections overwrite earlier
ones.  Returns `(left_hand, right_hand)`. -/
def assignHands (dets : List HandDetection) :
    Option (List Landmark) × Option (List Landmark) :=
  dets.foldl
    (fun lr d =>
      if isLeftLabel d then (lr.1, some d.landmarks) else (some d.landmarks, lr.2))
    (none, none)

/-- The hand detections carried by an optional `hand_result`
(`if hand_result and hand_result.hand_landmarks:` guards an empty loop). -/
def handDetections (hand_result : Option HandResult) : List HandDetection :=
  match hand_result with
  | some hr => hr.detections
  | none => []

/-- The pose landmark list selected by `extract_all_features`
(`pose_result.pose_landmarks[0]` when present and nonempty). -/
def selectedPose (pose_result : Option PoseResult) : Option (List Landmark) :=
  match pose_result with
  | some pr => pr.pose_landmarks.head?
  | none => none

/-- `extract_all_features(hand_result, pose_result)` from
`collect_data.py`: left-hand features, right-hand features, then (when
`USE_POSE`) pose features, cast to `float32`. -/
def extract_all_features (usePose : Bool) (hand_result : Option HandResult)
    (pose_result : Option PoseResult) : NpVector :=
  let lr := assignHands (handDetections hand_result)
  let left_features := normalize_hand_landmarks lr.1
  let right_features := normalize_hand_landmarks lr.2
  let features := left_features ++ right_features
  let features :=
    if usePose then features ++ extract_pose_subset usePose (selectedPose pose_result)
    else features
  NpVector.astype ⟨features, DType.float64⟩ DType.float32

/-! ### Sequence Recorder state machine (`main` of `collect_data.py`)

The mutable locals of `main` (`current_label`, `is_recording`,
`current_sequence`, `last_frame_time`) together with the persisted samples
on disk form the recorder state.  Wall-clock time is modelled as a
rational number of seconds. -/

/-- `frame_delay = 1.0 / FPS_TARGET`: minimum spacing between captured
frames while recording. -/
def frame_delay : ℚ := 1 / (FPS_TARGET : ℚ)

/-- Recorder state: `main`'s mutable locals plus the persisted samples
(each persisted sample is the label it was saved under and its frame
list). -/
structure RecState where
  current_label : Option String
  is_recording : Bool
  current_sequence : List NpVector
  last_frame_time : ℚ
  saved : List (Option String × List NpVector)
deriving DecidableEq, Repr

/-- One pass of the recording block of the main loop (lines 425-444 of
`collect_data.py`) at wall-clock time `now` with the current frame's
feature vector `features`: rate-limited append; once the buffer reaches
`SEQUENCE_LENGTH` the sequence is persisted under the current label and
the recorder returns to idle with an empty buffer. -/
def recordTick (s : RecState) (now : ℚ) (features : NpVector) : RecState :=
  if s.is_recording then
    if frame_delay ≤ now - s.last_frame_time then
      let seq := s.current_sequence ++ [features]
      if SEQUENCE_LENGTH ≤ seq.length then
        { s with
            is_recording := false
            current_sequence := []
            last_frame_time := now
            saved := s.saved ++ [(s.current_label, seq)] }
      else { s with current_sequence := seq, last_frame_time := now }
    else s
  else s

/-- Run the recording block over a list of `(time, features)` ticks. -/
def runTicks (s : RecState) (ticks : List (ℚ × NpVector)) : RecState :=
  ticks.foldl (fun st t => recordTick st t.1 t.2) s

/-- The SPACE key handler at time `now`: with a label set, start recording
(with a cleared buffer and fresh capture timestamp) when idle, else cancel
(discard the buffer, persist nothing). -/
def pressSpace (s : RecState) (now : ℚ) : RecState :=
  match s.current_label with
  | none => s
  | some _ =>
    if s.is_recording then { s with is_recording := false, current_sequence := [] }
    else { s with is_recording := true, current_sequence := [], last_frame_time := now }

/-- The `97 <= key <= 122` handler (a letter key that reaches the final
`elif`; `q`, `d` and `s` are intercepted by earlier branches and never
change the label): set the letter as the label, stop recording and clear
the buffer. -/
def pressLetter (s : RecState) (c : Char) : RecState :=
  { s with
      current_label := some (String.mk [c])
      is_recording := false
      current_sequence := [] }

/-- The `'0'` handler: read a gesture name and, when nonempty, set it as
the current label.  (`gesture` is the already stripped / lowercased /
underscored console input.)  Note that this branch touches neither
`is_recording` nor `current_sequence`. -/
def setCustomLabel (s : RecState) (gesture : String) : RecState :=
  if gesture = "" then s else { s with current_label := some gesture }

/-- Spec-side predicate: each time in the list is at least `frame_delay`
after its predecessor (the first one at least `frame_delay` after `t0`),
i.e. every tick is "at or above the sampling interval". -/
def spacedFrom (t0 : ℚ) : List ℚ → Prop
  | [] => True
  | t :: ts => frame_delay ≤ t - t0 ∧ spacedFrom t ts

/-! ### Sample indexing (`get_next_sample_number`)

Directory entries are modelled as lists of characters.  Python's
`f.replace('.npy', '')` removes the extension; for the sample files the
collector writes (a decimal number followed by `.npy`) this equals
dropping the four-character suffix, which is how `stripNpyExt` models it.
`int(...)` on a non-numeric stem raises `ValueError`, modelled by the
`none` result. -/

/-- The characters of the `.npy` extension. -/
def npyExt : List Char := ['.', 'n', 'p', 'y']

/-- `f.endswith('.npy')`. -/
def endsWithNpy (f : List Char) : Bool :=
  npyExt.isSuffixOf f

/-- `f.replace('.npy', '')` for a sample filename: drop the extension. -/
def stripNpyExt (f : List Char) : List Char :=
  f.take (f.length - npyExt.length)

/-- The numeric value of a decimal digit character, if it is one. -/
def digitVal? (c : Char) : Option Nat :=
  if c.isDigit then some (c.toNat - 48) else none

/-- `int(s)` for a nonnegative decimal literal: `some` of its value on a
nonempty all-digit string, `none` (a `ValueError`) otherwise. -/
def parseNatDigits (cs : List Char) : Option Nat :=
  if cs.isEmpty then none
  else cs.foldl (fun acc c => acc.bind fun n => (digitVal? c).map fun d => n * 10 + d) (some 0)

/-- `get_next_sample_number(label_dir)` from `collect_data.py`.  The
argument is `none` when the directory does not exist (the code creates it
and returns 0) and otherwise the directory's filenames.  The result is
`none` exactly when `int()` raises on some `.npy` stem. -/
def get_next_sample_number : Option (List (List Char)) → Option Nat
  | none => some 0
  | some files =>
    let existing := files.filter endsWithNpy
    if existing.isEmpty then some 0
    else
      let parsed := existing.map fun f => parseNatDigits (stripNpyExt f)
      if parsed.all Option.isSome then
        some ((parsed.filterMap id).foldl max 0 + 1)
      else none

/-! ### Dataset Loader (`load_data` of `train_model.py`)

The loader inspects only the shape of each stored array, so a stored
array is modelled by its shape plus an opaque content handle. -/

/-- A numpy array as seen by the loader: its shape and an abstract handle
for the numeric payload (which `load_data` never inspects). -/
structure NpArray where
  shape : List Nat
  content : Nat
deriving DecidableEq, Repr

/-- A file inside a label directory: whether its name ends in `.npy`, and
the array `np.load` would produce for it. -/
structure NpyFile where
  isNpy : Bool
  array : NpArray
deriving DecidableEq, Repr

/-- One entry of the data directory: the label name, whether it is a
directory, and its files in listing order. -/
structure DirEntry where
  name : String
  isDir : Bool
  files : List NpyFile
deriving DecidableEq, Repr

/-- The accumulator of `load_data`'s loops: collected sequences, their
parallel labels, and the auto-detected feature count. -/
structure LoadAcc where
  sequences : List NpArray
  labels : List String
  num_features : Option Nat
deriving DecidableEq, Repr

/-- The `num_features` auto-detection: taken from the first loaded file
whose array is 2-dimensional (`sequence.shape[1]`). -/
def detectFeatures (nf : Option Nat) (a : NpArray) : Option Nat :=
  match nf with
  | some k => some k
  | none => if a.shape.length = 2 then some (a.shape.getD 1 0) else none

/-- The per-sample acceptance test:
`len(sequence.shape) == 2 and sequence.shape[0] == SEQUENCE_LENGTH`. -/
def keepSample (a : NpArray) : Bool :=
  a.shape.length = 2 && a.shape.getD 0 0 = SEQUENCE_LENGTH

/-- `load_data`'s inner loop body for one `.npy` file of label `label`. -/
def loadFile (label : String) (acc : LoadAcc) (f : NpyFile) : LoadAcc :=
  let nf := detectFeatures acc.num_features f.array
  if keepSample f.array then
    { sequences := acc.sequences ++ [f.array]
      labels := acc.labels ++ [label]
      num_features := nf }
  else { acc with num_features := nf }

/-- `load_data`'s outer loop body for one entry of the data directory. -/
def loadEntry (acc : LoadAcc) (e : DirEntry) : LoadAcc :=
  if e.isDir then (e.files.filter NpyFile.isNpy).foldl (loadFile e.name) acc
  else acc

/-- `load_data()` from `train_model.py`.  `entries` is the data
directory's listing in sorted order (`sorted(os.listdir(DATA_DIR))`);
the result is `none` for the `(None, None, None)` returns (missing data
directory, or zero valid samples). -/
def load_data (dataDirExists : Bool) (entries : List DirEntry) :
    Option (List NpArray × List String × Option Nat) :=
  if dataDirExists then
    let acc := entries.foldl loadEntry ⟨[], [], none⟩
    if acc.sequences.isEmpty then none
    else some (acc.sequences, acc.labels, acc.num_features)
  else none

/-- Spec-side description of the kept samples: the `.npy` files of the
label directories whose array passes the shape test, each paired with its
label, in listing order. -/
def keptSamplesSpec (entries : List DirEntry) : List (NpArray × String) :=
  entries.flatMap fun e =>
    if e.isDir then
      ((e.files.filter NpyFile.isNpy).filter fun f => keepSample f.array).map
        fun f => (f.array, e.name)
    else []

/-- The arrays `load_data` loads, in loading order: the `.npy` files of
the label directories. -/
def loadedArrays (entries : List DirEntry) : List NpArray :=
  entries.flatMap fun e =>
    if e.isDir then (e.files.filter NpyFile.isNpy).map NpyFile.array else []

/-- Spec-side description of the detected feature count: `shape[1]` of
the first loaded array that is 2-dimensional, skipped or not. -/
def numFeaturesSpec (entries : List DirEntry) : Option Nat :=
  ((loadedArrays entries).find? fun a => a.shape.length = 2).map
    fun a => a.shape.getD 1 0

/-! ### Training loop (`main` of `train_model.py`)

Weights are abstract (`W`); what matters for the checkpoint contract is
which epoch's weights end up in `sign_model.pt`.  Epoch `i` of the run is
summarised by the pair (weights after that epoch's optimisation, that
epoch's validation accuracy); the loop observes these pairs in order. -/

/-- `patience = 20`: epochs without improvement before early stopping. -/
def patience : Nat := 20

/-- `EPOCHS = 100`: the maximum number of training epochs. -/
def EPOCHS : Nat := 100

/-- The checkpointing state of the training loop: `best_val_acc`,
`patience_counter`, the contents of `sign_model_best.pt` (none while the
file does not exist), and the live model's current weights. -/
structure TrainState (W : Type) where
  best_val_acc : ℚ
  patience_counter : Nat
  checkpoint : Option W
  current : W
deriving Repr

/-- One epoch's bookkeeping (lines 284-290 of `train_model.py`): on a
strict validation-accuracy improvement, save the current weights as the
best checkpoint and reset patience, else bump the patience counter. -/
def trainStep {W : Type} (o : W × ℚ) (s : TrainState W) : TrainState W :=
  let s1 := { s with current := o.1 }
  if s.best_val_acc < o.2 then
    { s1 with best_val_acc := o.2, patience_counter := 0, checkpoint := some o.1 }
  else { s1 with patience_counter := s.patience_counter + 1 }

/-- The epoch loop with early stopping: consume epoch outcomes in order,
stopping after `patience` epochs without improvement.  Also returns the
list of epoch outcomes actually executed. -/
def trainLoop {W : Type} : List (W × ℚ) → TrainState W → TrainState W × List (W × ℚ)
  | [], s => (s, [])
  | o :: rest, s =>
    if patience ≤ (trainStep o s).patience_counter then (trainStep o s, [o])
    else
      ((trainLoop rest (trainStep o s)).1, o :: (trainLoop rest (trainStep o s)).2)

/-- The state at the start of training: `best_val_acc = 0`,
`patience_counter = 0`, no checkpoint file yet, initial weights `w0`. -/
def initTrainState {W : Type} (w0 : W) : TrainState W :=
  ⟨0, 0, none, w0⟩

/-- A full training run on the (at most `EPOCHS`) epoch outcomes
`outs`. -/
def trainRun {W : Type} (w0 : W) (outs : List (W × ℚ)) :
    TrainState W × List (W × ℚ) :=
  trainLoop (outs.take EPOCHS) (initTrainState w0)

/-- The weights written to `sign_model.pt` (lines 297-315 of
`train_model.py`): the best checkpoint is reloaded into the model
(`load_state_dict`, which raises if the checkpoint file was never
written, hence `Option`), evaluation does not modify weights, and the
final save writes the model's weights. -/
def sign_model_pt {W : Type} (w0 : W) (outs : List (W × ℚ)) : Option W :=
  (trainRun w0 outs).1.checkpoint

/-- The weights the ONNX exporter consumes (`convert_to_onnx.py` line
101 loads `sign_model.pt`). -/
def exporterWeights {W : Type} (w0 : W) (outs : List (W × ℚ)) : Option W :=
  sign_model_pt w0 outs

/-- Spec-side description of "the best-validation-accuracy checkpoint
observed during training": the earliest epoch outcome attaining the
maximum validation accuracy (later outcomes win only on strict
improvement). -/
def argmaxFirst {W : Type} : List (W × ℚ) → Option (W × ℚ)
  | [] => none
  | p :: ps =>
    match argmaxFirst ps with
    | none => some p
    | some q => if p.2 < q.2 then some q else some p

/-- Helper for the checkpoint proof: the element the save chain ends on,
starting from running best `b`: the first element strictly above `b`
starts a chain that continues through later strict improvements. -/
def argmaxAbove {W : Type} (b : ℚ) : List (W × ℚ) → Option (W × ℚ)
  | [] => none
  | p :: ps =>
    if b < p.2 then
      match argmaxAbove p.2 ps with
      | some q => some q
      | none => some p
    else argmaxAbove b ps

/-! ### ONNX Exporter (`main` of `convert_to_onnx.py`) -/

/-- The persisted `model_config.json` record. -/
structure ModelConfig where
  sequence_length : Nat
  num_features : Nat
  num_classes : Nat
  labels : List String
deriving DecidableEq, Repr

/-- The declared interface of an exported ONNX graph: input and output
dimension lists, `none` marking a symbolic (dynamic) dimension. -/
structure OnnxGraph where
  inputDims : List (Option Nat)
  outputDims : List (Option Nat)
deriving DecidableEq, Repr

/-- The observable actions of `convert_to_onnx.main`, in program order. -/
inductive ExportStep where
  | exportGraph
  | copyModelToPublic
  | copyLabelsToPublic
  | copyConfigToPublic
  | runValidation
deriving DecidableEq, Repr

/-- The environment a run of `convert_to_onnx.main` executes in: whether
the config and model files exist, the loaded config, the graph
`torch.onnx.export` produces, and whether `onnx.checker.check_model`
succeeds on it. -/
structure ExportEnv where
  configExists : Bool
  modelExists : Bool
  config : ModelConfig
  exportedGraph : OnnxGraph
  checkerOk : Bool
deriving DecidableEq, Repr

/-- The outcome of a run of `convert_to_onnx.main`: the steps performed
in order, the graph published as `public/lstm_model.onnx` (none: the file
was not (re)written), whether labels / config were copied, and the
validation outcome (`none`: the `try` block caught an exception and the
validation was skipped). -/
structure ExportOutcome where
  steps : List ExportStep
  publicModel : Option OnnxGraph
  publicLabels : Bool
  publicConfig : Bool
  validationPassed : Option Bool
deriving DecidableEq, Repr

/-- `main()` of `convert_to_onnx.py`: early-return if config or model is
missing; otherwise export, copy the model, labels and config into the
public folder, and only then run the validation block, whose checker
failure is caught (`except ... print("Validation skipped")`) and which
never compares the declared shapes against the config nor removes any
published artifact. -/
def convert_main (env : ExportEnv) : ExportOutcome :=
  if env.configExists then
    if env.modelExists then
      { steps := [ExportStep.exportGraph, ExportStep.copyModelToPublic,
                  ExportStep.copyLabelsToPublic, ExportStep.copyConfigToPublic,
                  ExportStep.runValidation]
        publicModel := some env.exportedGraph
        publicLabels := true
        publicConfig := true
        validationPassed := if env.checkerOk then some true else none }
    else ⟨[], none, false, false, none⟩
  else ⟨[], none, false, false, none⟩

/-- Spec-side shape contract: the declared graph interface matches the
Model Config, i.e. input `(batch, sequence_length, num_features)` and
output `(batch, num_classes)` with a dynamic batch dimension. -/
def shapeMatches (g : OnnxGraph) (c : ModelConfig) : Bool :=
  g.inputDims = [none, some c.sequence_length, some c.num_features] &&
  g.outputDims = [none, some c.num_classes]

/-! ### Spec-side reference definitions for the Assembler and Normalizer -/

/-- A detection whose handedness label is anything other than `"Left"`
(in particular `"Right"`). -/
def notLeftLabel (d : HandDetection) : Bool :=
  !(isLeftLabel d)

/-- Spec-side left-hand slot: the landmarks of the last detection whose
label is not `"Left"`. -/
def leftSlotSpec (dets : List HandDetection) : Option (List Landmark) :=
  ((dets.filter notLeftLabel).getLast?).map HandDetection.landmarks

/-- Spec-side right-hand slot: the landmarks of the last detection whose
label is `"Left"` (the mirrored-video swap). -/
def rightSlotSpec (dets : List HandDetection) : Option (List Landmark) :=
  ((dets.filter isLeftLabel).getLast?).map HandDetection.landmarks

/-- Coordinate `j` of a landmark in the `(x, y, z)` flattening order. -/
def coordJ : Nat → Landmark → ℚ
  | 0, a => a.x
  | 1, a => a.y
  | _, a => a.z

/-! ### Concrete data for witnesses -/

/-- A frame feature vector for recorder witnesses: 159 zeros, `float32`
(as produced by the Assembler for a frame with nothing detected). -/
def zeroFrame : NpVector :=
  ⟨List.replicate 159 0, DType.float32⟩

/-- Thirty recorder ticks, one second apart, each carrying `zeroFrame`. -/
def thirtyTicks : List (ℚ × NpVector) :=
  [(1, zeroFrame), (2, zeroFrame), (3, zeroFrame), (4, zeroFrame), (5, zeroFrame),
   (6, zeroFrame), (7, zeroFrame), (8, zeroFrame), (9, zeroFrame), (10, zeroFrame),
   (11, zeroFrame), (12, zeroFrame), (13, zeroFrame), (14, zeroFrame), (15, zeroFrame),
   (16, zeroFrame), (17, zeroFrame), (18, zeroFrame), (19, zeroFrame), (20, zeroFrame),
   (21, zeroFrame), (22, zeroFrame), (23, zeroFrame), (24, zeroFrame), (25, zeroFrame),
   (26, zeroFrame), (27, zeroFrame), (28, zeroFrame), (29, zeroFrame), (30, zeroFrame)]

/-- A mid-recording state: label `"a"`, recording, one buffered frame,
nothing persisted yet. -/
def midRecordingState : RecState :=
  ⟨some "a", true, [zeroFrame], 0, []⟩

/-! ## Theorems -/

lemma assignHands_append (dets : List HandDetection) (d : HandDetection) :
    assignHands (dets ++ [d]) =
      if isLeftLabel d then ((assignHands dets).1, some d.landmarks)
      else (some d.landmarks, (assignHands dets).2) := by
  unfold assignHands
  rw [List.foldl_append]
  simp only [List.foldl_cons, List.foldl_nil]

lemma assignHands_spec (dets : List HandDetection) :
    assignHands dets = (leftSlotSpec dets, rightSlotSpec dets) := by
  induction dets using List.reverseRecOn with
  | nil => rfl
  | append_singleton ds d ih =>
    rw [assignHands_append, ih]
    unfold leftSlotSpec rightSlotSpec notLeftLabel
    cases hd : isLeftLabel d with
    | true =>
      simp [List.filter_append, hd, List.getLast?_concat]
    | false =>
      simp [List.filter_append, hd, List.getLast?_concat]

/-- C2: in the Assembler's hand-assignment loop, a detection labelled
`"Left"` lands in the right-hand slot and any other label (in particular
`"Right"`) in the left-hand slot; each slot holds the landmarks of the
last detection (in detection order) that resolved to it, so a later
detection overwrites an earlier one on the same slot. -/
theorem hand_slot_swap_last_wins :
    (∀ dets : List HandDetection,
        assignHands dets = (leftSlotSpec dets, rightSlotSpec dets)) ∧
    (∀ (dets : List HandDetection) (ls : List Landmark),
        (assignHands (dets ++ [⟨"Left", ls⟩])).2 = some ls ∧
        (assignHands (dets ++ [⟨"Right", ls⟩])).1 = some ls) := by
  refine ⟨assignHands_spec, fun dets ls => ?_⟩
  rw [assignHands_append, assignHands_append]
  constructor
  · simp [isLeftLabel]
  · simp [isLeftLabel]

/-- C5 counterexample: with a config declaring 159 features but an
exported graph declaring 200, the exporter still publishes the graph as
the public artifact, and the copy to the public folder happens strictly
before the validation step. -/
theorem export_publishes_despite_mismatch :
    shapeMatches ⟨[none, some 30, some 200], [none, some 2]⟩ ⟨30, 159, 2, []⟩ = false ∧
    (convert_main ⟨true, true, ⟨30, 159, 2, []⟩,
        ⟨[none, some 30, some 200], [none, some 2]⟩, true⟩).publicModel
      = some ⟨[none, some 30, some 200], [none, some 2]⟩ ∧
    (convert_main ⟨true, true, ⟨30, 159, 2, []⟩,
        ⟨[none, some 30, some 200], [none, some 2]⟩, true⟩).steps.indexOf
        ExportStep.copyModelToPublic
      < (convert_main ⟨true, true, ⟨30, 159, 2, []⟩,
        ⟨[none, some 30, some 200], [none, some 2]⟩, true⟩).steps.indexOf
        ExportStep.runValidation := by
  refine ⟨rfl, rfl, ?_⟩
  decide

/-- C5 (amended): once config and model files exist, the exporter always
copies the exported graph (together with labels and config) into the
public output folder, and the validation step runs only after these
copies; no shape comparison against the Model Config happens and no
mismatch aborts the export or withdraws the published artifact. -/
theorem export_copies_then_validates (env : ExportEnv)
    (hc : env.configExists = true) (hm : env.modelExists = true) :
    (convert_main env).publicModel = some env.exportedGraph ∧
    (convert_main env).publicLabels = true ∧
    (convert_main env).publicConfig = true ∧
    (convert_main env).steps
      = [ExportStep.exportGraph, ExportStep.copyModelToPublic,
         ExportStep.copyLabelsToPublic, ExportStep.copyConfigToPublic,
         ExportStep.runValidation] ∧
    (convert_main env).steps.indexOf ExportStep.copyModelToPublic
      < (convert_main env).steps.indexOf ExportStep.runValidation := by
  have h : convert_main env =
      { steps := [ExportStep.exportGraph, ExportStep.copyModelToPublic,
                  ExportStep.copyLabelsToPublic, ExportStep.copyConfigToPublic,
                  ExportStep.runValidation]
        publicModel := some env.exportedGraph
        publicLabels := true
        publicConfig := true
        validationPassed := if env.checkerOk then some true else none } := by
    unfold convert_main
    rw [hc, hm]
    simp
  rw [h]
  refine ⟨rfl, rfl, rfl, rfl, ?_⟩
  show ([ExportStep.exportGraph, ExportStep.copyModelToPublic,
         ExportStep.copyLabelsToPublic, ExportStep.copyConfigToPublic,
         ExportStep.runValidation]).indexOf ExportStep.copyModelToPublic
      < ([ExportStep.exportGraph, ExportStep.copyModelToPublic,
          ExportStep.copyLabelsToPublic, ExportStep.copyConfigToPublic,
          ExportStep.runValidation]).indexOf ExportStep.runValidation
  decide

theorem export_copies_then_validates_witness :
    (true : Bool) = true ∧
    (convert_main ⟨true, true, ⟨30, 159, 2, []⟩,
        ⟨[none, some 30, some 159], [none, some 2]⟩, true⟩).publicModel
      = some ⟨[none, some 30, some 159], [none, some 2]⟩ :=
  ⟨rfl, (export_copies_then_validates
      ⟨true, true, ⟨30, 159, 2, []⟩, ⟨[none, some 30, some 159], [none, some 2]⟩, true⟩
      rfl rfl).1⟩

/-- C6 counterexample: the `'0'` custom-label command changes the active
label while the recorder is RECORDING, yet recording continues and the
in-progress buffer is kept, so not every label-changing command resets
the recorder state. -/
theorem custom_label_command_keeps_recording :
    midRecordingState.is_recording = true ∧
    (setCustomLabel midRecordingState "hello").current_label ≠
      midRecordingState.current_label ∧
    (setCustomLabel midRecordingState "hello").is_recording = true ∧
    (setCustomLabel midRecordingState "hello").current_sequence ≠ [] := by
  refine ⟨rfl, ?_, rfl, ?_⟩ <;> simp [setCustomLabel, midRecordingState]

/-- C6 (amended): a label change via an a-z letter key resets the
recorder (recording stops and the buffer is cleared), but the `'0'`
custom-label command changes the label while leaving `is_recording` and
the in-progress buffer untouched, so the buffer continues under the new
label. -/
theorem letter_label_resets_recording (s : RecState) (c : Char) (g : String)
    (hg : g ≠ "") :
    (pressLetter s c).is_recording = false ∧
    (pressLetter s c).current_sequence = [] ∧
    (pressLetter s c).current_label = some (String.mk [c]) ∧
    (setCustomLabel s g).current_label = some g ∧
    (setCustomLabel s g).is_recording = s.is_recording ∧
    (setCustomLabel s g).current_sequence = s.current_sequence ∧
    (setCustomLabel s g).saved = s.saved := by
  refine ⟨rfl, rfl, rfl, ?_, ?_, ?_, ?_⟩ <;> simp [setCustomLabel, hg]

theorem letter_label_resets_recording_witness :
    ("hi" : String) ≠ "" ∧
    (pressLetter midRecordingState 'b').is_recording = false ∧
    (setCustomLabel midRecordingState "hi").is_recording =
      midRecordingState.is_recording :=
  ⟨by decide, (letter_label_resets_recording midRecordingState 'b' "hi" (by decide)).1,
   (letter_label_resets_recording midRecordingState 'b' "hi" (by decide)).2.2.2.2.1⟩

/-- C8: for a label directory, the next sample index is 0 when the
directory does not exist or holds no `.npy` files, and otherwise (for a
directory of parseable sample files with indices `ns`) it is the maximum
existing index plus one, gaps tolerated. -/
theorem next_sample_index_is_max_plus_one
    (files : List (List Char)) (ns : List Nat)
    (hnpy : ∀ f ∈ files, endsWithNpy f = true)
    (hparse : files.map (fun f => parseNatDigits (stripNpyExt f)) = ns.map some)
    (hne : files ≠ []) :
    get_next_sample_number none = some 0 ∧
    get_next_sample_number (some []) = some 0 ∧
    get_next_sample_number (some files) = some (ns.foldl max 0 + 1) := by
  refine ⟨rfl, rfl, ?_⟩
  show (let existing := files.filter endsWithNpy
        if existing.isEmpty then some 0
        else
          let parsed := existing.map fun f => parseNatDigits (stripNpyExt f)
          if parsed.all Option.isSome then
            some ((parsed.filterMap id).foldl max 0 + 1)
          else none) = some (ns.foldl max 0 + 1)
  simp only
  rw [List.filter_eq_self.mpr hnpy]
  rw [if_neg (by simpa using hne)]
  rw [hparse]
  have hall : (ns.map some).all Option.isSome = true := by
    simp [List.all_eq_true]
  rw [if_pos hall]
  have hfm : (ns.map some).filterMap id = ns := by
    simp [List.filterMap_map]
  rw [hfm]

theorem next_sample_index_is_max_plus_one_witness :
    get_next_sample_number
        (some [['0', '.', 'n', 'p', 'y'], ['1', '.', 'n', 'p', 'y'],
               ['3', '.', 'n', 'p', 'y']]) = some 4 := by
  have h := (next_sample_index_is_max_plus_one
      [['0', '.', 'n', 'p', 'y'], ['1', '.', 'n', 'p', 'y'], ['3', '.', 'n', 'p', 'y']]
      [0, 1, 3] (by decide) (by decide) (by decide)).2.2
  rw [h]
  rfl

lemma flatMap_lmFlatten_length (cs : List Landmark) :
    (cs.flatMap lmFlatten).length = 3 * cs.length := by
  induction cs with
  | nil => rfl
  | cons c cs ih =>
    simp only [List.flatMap_cons, List.length_append, ih, lmFlatten,
      List.length_cons, List.length_nil]
    ring

lemma coordJ_lmScaleDiv (j : Nat) (c : Landmark) (m : ℚ) :
    coordJ j (lmScaleDiv c m) = coordJ j c / m := by
  match j with
  | 0 => rfl
  | 1 => rfl
  | n + 2 => rfl

lemma coordJ_zero_landmark (j : Nat) : coordJ j ⟨0, 0, 0⟩ = 0 := by
  match j with
  | 0 => rfl
  | 1 => rfl
  | n + 2 => rfl

lemma flatMap_lmFlatten_getD (cs : List Landmark) (i j : Nat)
    (hi : i < cs.length) (hj : j < 3) :
    (cs.flatMap lmFlatten).getD (3 * i + j) 0 = coordJ j (cs.getD i default) := by
  induction cs generalizing i with
  | nil => simp at hi
  | cons c cs ih =>
    cases i with
    | zero =>
      interval_cases j <;> rfl
    | succ n =>
      have h3 : 3 * (n + 1) + j = 3 * n + j + 1 + 1 + 1 := by ring
      have hcons : (c :: cs).flatMap lmFlatten
          = c.x :: c.y :: c.z :: cs.flatMap lmFlatten := rfl
      rw [h3, hcons]
      simp only [List.getD_cons_succ, List.getD_cons_zero]
      exact ih n (by simp only [List.length_cons] at hi; omega)

lemma headI_eq_getD_zero (lms : List Landmark) :
    lms.headI = lms.getD 0 default := by
  cases lms <;> rfl

lemma getD_map_lmSub (lms : List Landmark) (i : Nat) (hi : i < lms.length) :
    (translated lms).getD i default
      = lmSub (lms.getD i default) (lms.getD 0 default) := by
  unfold translated
  rw [List.getD_eq_getElem?_getD, List.getElem?_map,
    List.getElem?_eq_getElem hi]
  simp [List.getD_eq_getElem?_getD, List.getElem?_eq_getElem hi,
    headI_eq_getD_zero]

lemma getD_map_lmScaleDiv (cs : List Landmark) (m : ℚ) (i : Nat)
    (hi : i < cs.length) :
    (cs.map fun c => lmScaleDiv c m).getD i default
      = lmScaleDiv (cs.getD i default) m := by
  rw [List.getD_eq_getElem?_getD, List.getElem?_map,
    List.getElem?_eq_getElem hi]
  simp [List.getD_eq_getElem?_getD, List.getElem?_eq_getElem hi]

lemma normalize_some_eq (lms : List Landmark) :
    normalize_hand_landmarks (some lms)
      = (if NORM_EPS < max_val lms
         then (translated lms).map fun c => lmScaleDiv c (max_val lms)
         else translated lms).flatMap lmFlatten := rfl

lemma normalize_some_length (lms : List Landmark) :
    (normalize_hand_landmarks (some lms)).length = 3 * lms.length := by
  rw [normalize_some_eq]
  by_cases hm : NORM_EPS < max_val lms
  · rw [if_pos hm, flatMap_lmFlatten_length, List.length_map]
    simp [translated]
  · rw [if_neg hm, flatMap_lmFlatten_length]
    simp [translated]

lemma take_three_getD (l : List ℚ) (h : 3 ≤ l.length) :
    l.take 3 = [l.getD 0 0, l.getD 1 0, l.getD 2 0] := by
  rcases l with _ | ⟨x, _ | ⟨y, _ | ⟨z, t⟩⟩⟩ <;> first | rfl | simp at h

lemma pose_chunks_length (lms : List Landmark) (is : List Nat) :
    (is.flatMap fun idx =>
      match lms.get? idx with
      | some lm => [lm.x, lm.y, lm.z]
      | none => ([0, 0, 0] : List ℚ)).length = 3 * is.length := by
  induction is with
  | nil => rfl
  | cons i is ih =>
    rw [List.flatMap_cons, List.length_append, ih]
    have hc : (match lms.get? i with
        | some lm => [lm.x, lm.y, lm.z]
        | none => ([0, 0, 0] : List ℚ)).length = 3 := by
      cases lms.get? i <;> rfl
    rw [hc, List.length_cons]
    ring

lemma pose_subset_length (p : Option (List Landmark)) :
    (extract_pose_subset true p).length = 33 := by
  cases p with
  | none => rfl
  | some lms =>
    show ((POSE_INDICES.take POSE_LANDMARKS_COUNT).flatMap fun idx =>
        match lms.get? idx with
        | some lm => [lm.x, lm.y, lm.z]
        | none => ([0, 0, 0] : List ℚ)).length = 33
    rw [pose_chunks_length]
    decide

lemma assignHands_slot_lengths (dets : List HandDetection)
    (h : ∀ d ∈ dets, d.landmarks.length = 21) :
    (normalize_hand_landmarks (assignHands dets).1).length = 63 ∧
    (normalize_hand_landmarks (assignHands dets).2).length = 63 := by
  rw [assignHands_spec]
  constructor
  · cases hg : (dets.filter notLeftLabel).getLast? with
    | none => simp only [leftSlotSpec, hg, Option.map_none']; rfl
    | some d =>
      have hd : d ∈ dets :=
        List.mem_of_mem_filter (List.mem_of_mem_getLast? (by rw [hg]; rfl))
      simp only [leftSlotSpec, hg, Option.map_some']
      rw [normalize_some_length, h d hd]
  · cases hg : (dets.filter isLeftLabel).getLast? with
    | none => simp only [rightSlotSpec, hg, Option.map_none']; rfl
    | some d =>
      have hd : d ∈ dets :=
        List.mem_of_mem_filter (List.mem_of_mem_getLast? (by rw [hg]; rfl))
      simp only [rightSlotSpec, hg, Option.map_some']
      rw [normalize_some_length, h d hd]

/-- C3: the Landmark Normalizer returns the all-zero 63-vector for an
absent hand; for a present 21-landmark hand the output has length 63,
entry `3*i+j` is coordinate `j` of landmark `i` translated by the wrist
and divided by the maximum absolute translated coordinate exactly when
that maximum exceeds 1e-6 (else left unscaled), and landmark 0's
translated coordinates — hence the first three output entries — are
exactly zero. -/
theorem normalizer_output (lms : List Landmark) (h21 : lms.length = 21) :
    normalize_hand_landmarks none = List.replicate 63 0 ∧
    (normalize_hand_landmarks (some lms)).length = 63 ∧
    (translated lms).getD 0 default = (⟨0, 0, 0⟩ : Landmark) ∧
    (normalize_hand_landmarks (some lms)).take 3 = [0, 0, 0] ∧
    (∀ i, i < 21 → ∀ j, j < 3 →
      (normalize_hand_landmarks (some lms)).getD (3 * i + j) 0 =
        if NORM_EPS < max_val lms
        then coordJ j (lmSub (lms.getD i default) (lms.getD 0 default)) / max_val lms
        else coordJ j (lmSub (lms.getD i default) (lms.getD 0 default))) := by
  have hlen : (normalize_hand_landmarks (some lms)).length = 63 := by
    rw [normalize_some_length, h21]
  have htl : (translated lms).length = lms.length := by simp [translated]
  have hidx : ∀ i, i < 21 → ∀ j, j < 3 →
      (normalize_hand_landmarks (some lms)).getD (3 * i + j) 0 =
        if NORM_EPS < max_val lms
        then coordJ j (lmSub (lms.getD i default) (lms.getD 0 default)) / max_val lms
        else coordJ j (lmSub (lms.getD i default) (lms.getD 0 default)) := by
    intro i hi j hj
    have hil : i < lms.length := by rw [h21]; exact hi
    rw [normalize_some_eq]
    by_cases hm : NORM_EPS < max_val lms
    · rw [if_pos hm, if_pos hm]
      rw [flatMap_lmFlatten_getD _ i j (by rw [List.length_map, htl]; exact hil) hj]
      rw [getD_map_lmScaleDiv _ _ i (by rw [htl]; exact hil)]
      rw [getD_map_lmSub lms i hil]
      rw [coordJ_lmScaleDiv]
    · rw [if_neg hm, if_neg hm]
      rw [flatMap_lmFlatten_getD _ i j (by rw [htl]; exact hil) hj]
      rw [getD_map_lmSub lms i hil]
  have hwrist : (normalize_hand_landmarks (some lms)).take 3 = [0, 0, 0] := by
    rw [take_three_getD _ (by rw [hlen]; omega)]
    have e0 := hidx 0 (by omega) 0 (by omega)
    have e1 := hidx 0 (by omega) 1 (by omega)
    have e2 := hidx 0 (by omega) 2 (by omega)
    have hz : lmSub (lms.getD 0 default) (lms.getD 0 default) = (⟨0, 0, 0⟩ : Landmark) := by
      simp [lmSub]
    rw [hz, coordJ_zero_landmark, zero_div, ite_self] at e0 e1 e2
    simp only [Nat.mul_zero, Nat.zero_add, Nat.add_zero] at e0 e1 e2
    rw [e0, e1, e2]
  refine ⟨rfl, hlen, ?_, hwrist, hidx⟩
  rw [getD_map_lmSub lms 0 (by rw [h21]; omega)]
  simp [lmSub]

theorem normalizer_output_witness :
    (List.replicate 21 (⟨0, 0, 0⟩ : Landmark)).length = 21 ∧
    (normalize_hand_landmarks (some (List.replicate 21 ⟨0, 0, 0⟩))).length = 63 :=
  ⟨by simp, (normalizer_output (List.replicate 21 ⟨0, 0, 0⟩) (by simp)).2.1⟩

/-- C1: for every frame input (any combination of detected hands with
21-landmark hands, pose present or absent) the Assembler returns a
`float32` vector of exactly `TOTAL_FEATURES` values — 159 with pose
features enabled, 126 without — laid out as left-hand features (63), then
right-hand features (63), then pose features (33, when enabled). -/
theorem assembler_output_layout (usePose : Bool) (hr : Option HandResult)
    (pr : Option PoseResult)
    (hhands : ∀ d ∈ handDetections hr, d.landmarks.length = 21) :
    (extract_all_features usePose hr pr).dtype = DType.float32 ∧
    TOTAL_FEATURES true = 159 ∧
    TOTAL_FEATURES false = 126 ∧
    (extract_all_features usePose hr pr).data.length = TOTAL_FEATURES usePose ∧
    (extract_all_features usePose hr pr).data.take HAND_FEATURES
      = normalize_hand_landmarks (assignHands (handDetections hr)).1 ∧
    ((extract_all_features usePose hr pr).data.drop HAND_FEATURES).take HAND_FEATURES
      = normalize_hand_landmarks (assignHands (handDetections hr)).2 ∧
    (extract_all_features usePose hr pr).data.drop (2 * HAND_FEATURES)
      = (if usePose then extract_pose_subset usePose (selectedPose pr) else []) := by
  obtain ⟨hL, hR⟩ := assignHands_slot_lengths (handDetections hr) hhands
  have hdata : (extract_all_features usePose hr pr).data
      = (normalize_hand_landmarks (assignHands (handDetections hr)).1
          ++ normalize_hand_landmarks (assignHands (handDetections hr)).2)
        ++ (if usePose then extract_pose_subset usePose (selectedPose pr) else []) := by
    cases usePose with
    | true => rfl
    | false =>
      rw [if_neg Bool.false_ne_true, List.append_nil]
      rfl
  have hL' : (normalize_hand_landmarks (assignHands (handDetections hr)).1).length
      = HAND_FEATURES := hL
  have hLR : (normalize_hand_landmarks (assignHands (handDetections hr)).1
        ++ normalize_hand_landmarks (assignHands (handDetections hr)).2).length
      = 2 * HAND_FEATURES := by
    rw [List.length_append, hL, hR]
    rfl
  refine ⟨rfl, rfl, rfl, ?_, ?_, ?_, ?_⟩
  · rw [hdata]
    cases usePose with
    | true =>
      rw [List.length_append, List.length_append, hL, hR, if_pos rfl,
        pose_subset_length]
      rfl
    | false =>
      rw [List.length_append, List.length_append, hL, hR,
        if_neg Bool.false_ne_true]
      rfl
  · rw [hdata, List.append_assoc]
    exact List.take_left' hL
  · rw [hdata, List.append_assoc, List.drop_left' hL']
    exact List.take_left' hR
  · rw [hdata]
    exact List.drop_left' hLR

theorem assembler_output_layout_witness :
    (∀ d ∈ handDetections none, d.landmarks.length = 21) ∧
    (extract_all_features true none none).dtype = DType.float32 ∧
    (extract_all_features true none none).data.length = TOTAL_FEATURES true :=
  ⟨by simp [handDetections],
   (assembler_output_layout true none none (by simp [handDetections])).1,
   (assembler_output_layout true none none (by simp [handDetections])).2.2.2.1⟩

lemma detectFeatures_foldl_some (k : Nat) (as : List NpArray) :
    as.foldl detectFeatures (some k) = some k := by
  induction as with
  | nil => rfl
  | cons a as ih => simpa [detectFeatures] using ih

lemma detectFeatures_foldl_none (as : List NpArray) :
    as.foldl detectFeatures none
      = (as.find? fun a => a.shape.length = 2).map fun a => a.shape.getD 1 0 := by
  induction as with
  | nil => rfl
  | cons a as ih =>
    by_cases h : a.shape.length = 2
    · rw [List.foldl_cons, List.find?_cons_of_pos _ (by simpa using h)]
      simp [detectFeatures, h, detectFeatures_foldl_some]
    · rw [List.foldl_cons, List.find?_cons_of_neg _ (by simpa using h)]
      simpa [detectFeatures, h] using ih

lemma loadFile_foldl (label : String) (files : List NpyFile) (acc : LoadAcc) :
    files.foldl (loadFile label) acc =
      ⟨acc.sequences ++ (files.filter fun f => keepSample f.array).map NpyFile.array,
       acc.labels ++ (files.filter fun f => keepSample f.array).map fun _ => label,
       (files.map NpyFile.array).foldl detectFeatures acc.num_features⟩ := by
  induction files generalizing acc with
  | nil => simp
  | cons f fs ih =>
    rw [List.foldl_cons, ih]
    unfold loadFile
    by_cases hk : keepSample f.array
    · simp [hk]
    · simp [hk]

lemma loadEntry_foldl (entries : List DirEntry) (acc : LoadAcc) :
    entries.foldl loadEntry acc =
      ⟨acc.sequences ++ (keptSamplesSpec entries).map Prod.fst,
       acc.labels ++ (keptSamplesSpec entries).map Prod.snd,
       (loadedArrays entries).foldl detectFeatures acc.num_features⟩ := by
  induction entries generalizing acc with
  | nil => simp [keptSamplesSpec, loadedArrays]
  | cons e es ih =>
    rw [List.foldl_cons, ih]
    unfold loadEntry
    by_cases he : e.isDir
    · rw [if_pos he, loadFile_foldl]
      simp only [keptSamplesSpec, loadedArrays, List.flatMap_cons, if_pos he,
        List.map_append, List.map_map, List.foldl_append, Function.comp_def,
        List.append_assoc]
    · rw [if_neg he]
      simp only [keptSamplesSpec, loadedArrays, List.flatMap_cons, if_neg he,
        List.nil_append, List.map_append, List.foldl_append, List.map_nil,
        List.foldl_nil, List.append_assoc]

/-- C7: the Dataset Loader returns exactly the samples passing the shape
test (first dimension 30, 2-dimensional), paired with their labels in
order, and returns `none` exactly when the data directory is missing or
zero valid samples exist; every accepted sample satisfies the shape test;
and on 5 valid 30x159 samples plus one malformed 10x159 sample it yields
exactly 5 entries with detected feature count 159. -/
theorem loader_skips_malformed :
    (∀ entries, load_data false entries = none) ∧
    (∀ entries, load_data true entries =
        if (keptSamplesSpec entries).isEmpty then none
        else some ((keptSamplesSpec entries).map Prod.fst,
                   (keptSamplesSpec entries).map Prod.snd,
                   numFeaturesSpec entries)) ∧
    (∀ entries, ((keptSamplesSpec entries).all fun p => keepSample p.1) = true) ∧
    load_data true [⟨"a", true,
        [⟨true, ⟨[30, 159], 1⟩⟩, ⟨true, ⟨[30, 159], 2⟩⟩, ⟨true, ⟨[30, 159], 3⟩⟩,
         ⟨true, ⟨[30, 159], 4⟩⟩, ⟨true, ⟨[30, 159], 5⟩⟩, ⟨true, ⟨[10, 159], 6⟩⟩]⟩]
      = some ([⟨[30, 159], 1⟩, ⟨[30, 159], 2⟩, ⟨[30, 159], 3⟩,
               ⟨[30, 159], 4⟩, ⟨[30, 159], 5⟩],
              ["a", "a", "a", "a", "a"], some 159) := by
  refine ⟨fun entries => rfl, fun entries => ?_, fun entries => ?_, rfl⟩
  · show (let acc := entries.foldl loadEntry ⟨[], [], none⟩
          if acc.sequences.isEmpty then none
          else some (acc.sequences, acc.labels, acc.num_features)) = _
    rw [loadEntry_foldl]
    simp only [List.nil_append]
    rw [detectFeatures_foldl_none]
    cases h : keptSamplesSpec entries with
    | nil => simp [numFeaturesSpec]
    | cons p ps => simp [numFeaturesSpec]
  · rw [List.all_eq_true]
    intro p hp
    simp only [keptSamplesSpec, List.mem_flatMap] at hp
    obtain ⟨e, _, hp⟩ := hp
    by_cases he : e.isDir
    · rw [if_pos he] at hp
      simp only [List.mem_map] at hp
      obtain ⟨f, hf, rfl⟩ := hp
      exact (List.mem_filter.mp hf).2
    · rw [if_neg he] at hp
      simp at hp

/-- C10: the loader takes the detected feature count from the first
2-dimensional file even when that file is itself skipped for a bad first
dimension, so a dataset whose first file is a malformed 10x200 sample
followed by valid 30x159 samples loads as a non-empty sample list whose
feature width (159 throughout) differs from the reported `num_features`
(200); and accepted samples of different widths coexist without any
consistency check. -/
theorem loader_feature_detection_uses_skipped_file :
    load_data true [⟨"a", true,
        [⟨true, ⟨[10, 200], 0⟩⟩, ⟨true, ⟨[30, 159], 1⟩⟩, ⟨true, ⟨[30, 159], 2⟩⟩,
         ⟨true, ⟨[30, 159], 3⟩⟩]⟩]
      = some ([⟨[30, 159], 1⟩, ⟨[30, 159], 2⟩, ⟨[30, 159], 3⟩], ["a", "a", "a"], some 200) ∧
    ([⟨[30, 159], 1⟩, ⟨[30, 159], 2⟩, ⟨[30, 159], 3⟩] : List NpArray) ≠ [] ∧
    (([⟨[30, 159], 1⟩, ⟨[30, 159], 2⟩, ⟨[30, 159], 3⟩] : List NpArray).all
        fun a => a.shape.getD 1 0 = 159) = true ∧
    (159 : Nat) ≠ 200 ∧
    load_data true [⟨"b", true, [⟨true, ⟨[30, 159], 4⟩⟩, ⟨true, ⟨[30, 100], 5⟩⟩]⟩]
      = some ([⟨[30, 159], 4⟩, ⟨[30, 100], 5⟩], ["b", "b"], some 159) := by
  refine ⟨?_, by decide, by decide, by decide, ?_⟩ <;> rfl

lemma runTicks_cons (s : RecState) (t : ℚ × NpVector) (ts : List (ℚ × NpVector)) :
    runTicks s (t :: ts) = runTicks (recordTick s t.1 t.2) ts := rfl

lemma runTicks_partial (s : RecState) (ticks : List (ℚ × NpVector))
    (hrec : s.is_recording = true)
    (hsp : spacedFrom s.last_frame_time (ticks.map Prod.fst))
    (hlt : s.current_sequence.length + ticks.length < SEQUENCE_LENGTH) :
    runTicks s ticks =
      { s with
          current_sequence := s.current_sequence ++ ticks.map Prod.snd
          last_frame_time := (ticks.map Prod.fst).getLastD s.last_frame_time } := by
  induction ticks generalizing s with
  | nil => simp [runTicks]
  | cons t ts ih =>
    simp only [List.map_cons, spacedFrom] at hsp
    obtain ⟨h1, h2⟩ := hsp
    simp only [List.length_cons, SEQUENCE_LENGTH] at hlt
    have hno : ¬ (SEQUENCE_LENGTH ≤ (s.current_sequence ++ [t.2]).length) := by
      simp only [List.length_append, List.length_cons, List.length_nil, SEQUENCE_LENGTH]
      omega
    have hstep : recordTick s t.1 t.2 =
        { s with
            current_sequence := s.current_sequence ++ [t.2]
            last_frame_time := t.1 } := by
      unfold recordTick
      rw [if_pos hrec, if_pos h1, if_neg hno]
    rw [runTicks_cons, hstep]
    rw [ih { s with
        current_sequence := s.current_sequence ++ [t.2]
        last_frame_time := t.1 } hrec h2 (by
      simp only [List.length_append, List.length_cons, List.length_nil, SEQUENCE_LENGTH]
      omega)]
    simp only [List.map_cons, List.getLastD_cons, List.append_assoc,
      List.singleton_append]

lemma runTicks_complete (s : RecState) (ticks : List (ℚ × NpVector))
    (hrec : s.is_recording = true)
    (hsp : spacedFrom s.last_frame_time (ticks.map Prod.fst))
    (heq : s.current_sequence.length + ticks.length = SEQUENCE_LENGTH)
    (hne : ticks ≠ []) :
    (runTicks s ticks).saved
      = s.saved ++ [(s.current_label, s.current_sequence ++ ticks.map Prod.snd)] ∧
    (runTicks s ticks).is_recording = false ∧
    (runTicks s ticks).current_sequence = [] := by
  induction ticks generalizing s with
  | nil => exact absurd rfl hne
  | cons t ts ih =>
    simp only [List.map_cons, spacedFrom] at hsp
    obtain ⟨h1, h2⟩ := hsp
    cases ts with
    | nil =>
      simp only [List.length_cons, List.length_nil, SEQUENCE_LENGTH] at heq
      have hlen30 : SEQUENCE_LENGTH ≤ (s.current_sequence ++ [t.2]).length := by
        simp only [List.length_append, List.length_cons, List.length_nil, SEQUENCE_LENGTH]
        omega
      have hstep : recordTick s t.1 t.2 =
          { s with
              is_recording := false
              current_sequence := []
              last_frame_time := t.1
              saved := s.saved ++ [(s.current_label, s.current_sequence ++ [t.2])] } := by
        unfold recordTick
        rw [if_pos hrec, if_pos h1, if_pos hlen30]
      rw [runTicks_cons, hstep]
      exact ⟨rfl, rfl, rfl⟩
    | cons t2 ts2 =>
      simp only [List.length_cons, SEQUENCE_LENGTH] at heq
      have hno : ¬ (SEQUENCE_LENGTH ≤ (s.current_sequence ++ [t.2]).length) := by
        simp only [List.length_append, List.length_cons, List.length_nil, SEQUENCE_LENGTH]
        omega
      have hstep : recordTick s t.1 t.2 =
          { s with
              current_sequence := s.current_sequence ++ [t.2]
              last_frame_time := t.1 } := by
        unfold recordTick
        rw [if_pos hrec, if_pos h1, if_neg hno]
      rw [runTicks_cons, hstep]
      obtain ⟨i1, i2, i3⟩ := ih { s with
          current_sequence := s.current_sequence ++ [t.2]
          last_frame_time := t.1 } hrec h2
        (by
          simp only [List.length_append, List.length_cons, List.length_nil, SEQUENCE_LENGTH]
          omega)
        (by simp)
      refine ⟨?_, i2, i3⟩
      rw [i1]
      simp [List.append_assoc]

lemma pressSpace_start (lab : Option String) (seq : List NpVector) (lt : ℚ)
    (sv : List (Option String × List NpVector)) (now : ℚ) (L : String)
    (hl : lab = some L) :
    pressSpace ⟨lab, false, seq, lt, sv⟩ now = ⟨lab, true, [], now, sv⟩ := by
  subst hl
  rfl

lemma pressSpace_cancel (lab : Option String) (seq : List NpVector) (lt : ℚ)
    (sv : List (Option String × List NpVector)) (now : ℚ) (L : String)
    (hl : lab = some L) :
    pressSpace ⟨lab, true, seq, lt, sv⟩ now = ⟨lab, false, [], lt, sv⟩ := by
  subst hl
  rfl

/-- C4: starting a recording (SPACE while idle with a label set) and
feeding exactly 30 ticks spaced at or above the sampling interval
persists exactly one sample — the 30 captured frames, of width 159 when
the frames are Assembler outputs — under the current label, and returns
to idle with an empty buffer; cancelling (SPACE again) after fewer than
30 ticks persists nothing and leaves the recorder idle with an empty
buffer. -/
theorem recorder_thirty_ticks_one_sample
    (s : RecState) (L : String) (t0 tc : ℚ)
    (ticks cticks : List (ℚ × NpVector))
    (hlabel : s.current_label = some L)
    (hidle : s.is_recording = false)
    (h30 : ticks.length = SEQUENCE_LENGTH)
    (hsp : spacedFrom t0 (ticks.map Prod.fst))
    (hfeat : ∀ p ∈ ticks, (Prod.snd p).data.length = 159)
    (hk : cticks.length < SEQUENCE_LENGTH)
    (hcsp : spacedFrom t0 (cticks.map Prod.fst)) :
    (runTicks (pressSpace s t0) ticks).saved
      = s.saved ++ [(some L, ticks.map Prod.snd)] ∧
    (runTicks (pressSpace s t0) ticks).is_recording = false ∧
    (runTicks (pressSpace s t0) ticks).current_sequence = [] ∧
    (ticks.map Prod.snd).length = SEQUENCE_LENGTH ∧
    (∀ f ∈ ticks.map Prod.snd, f.data.length = 159) ∧
    (pressSpace (runTicks (pressSpace s t0) cticks) tc).saved = s.saved ∧
    (pressSpace (runTicks (pressSpace s t0) cticks) tc).is_recording = false ∧
    (pressSpace (runTicks (pressSpace s t0) cticks) tc).current_sequence = [] := by
  obtain ⟨lab, rec, seq, lt, sv⟩ := s
  have hlab : lab = some L := hlabel
  have hrec : rec = false := hidle
  subst hlab
  subst hrec
  have hstart : pressSpace ⟨some L, false, seq, lt, sv⟩ t0
      = ⟨some L, true, [], t0, sv⟩ := pressSpace_start _ seq lt sv t0 L rfl
  rw [hstart]
  have hne : ticks ≠ [] := by
    intro hnil
    rw [hnil] at h30
    simp [SEQUENCE_LENGTH] at h30
  obtain ⟨c1, c2, c3⟩ := runTicks_complete ⟨some L, true, [], t0, sv⟩ ticks rfl hsp
    (by simpa using h30) hne
  have hpart := runTicks_partial ⟨some L, true, [], t0, sv⟩ cticks rfl hcsp
    (by simpa using hk)
  rw [hpart]
  have hcancel : pressSpace
      (⟨some L, true, [] ++ cticks.map Prod.snd,
        (cticks.map Prod.fst).getLastD t0, sv⟩ : RecState) tc
      = ⟨some L, false, [], (cticks.map Prod.fst).getLastD t0, sv⟩ :=
    pressSpace_cancel _ _ _ _ tc L rfl
  rw [hcancel]
  refine ⟨?_, c2, c3, ?_, ?_, rfl, rfl, rfl⟩
  · rw [c1]
    simp
  · rw [List.length_map]
    exact h30
  · intro f hf
    obtain ⟨p, hp, rfl⟩ := List.mem_map.mp hf
    exact hfeat p hp

set_option maxRecDepth 4000 in
theorem recorder_thirty_ticks_one_sample_witness :
    thirtyTicks.length = SEQUENCE_LENGTH ∧
    spacedFrom 0 (thirtyTicks.map Prod.fst) ∧
    (∀ p ∈ thirtyTicks, (Prod.snd p).data.length = 159) ∧
    (runTicks (pressSpace ⟨some "a", false, [], 0, []⟩ 0) thirtyTicks).saved
      = [] ++ [(some "a", thirtyTicks.map Prod.snd)] := by
  have hsp : spacedFrom 0 (thirtyTicks.map Prod.fst) := by
    simp only [thirtyTicks, List.map_cons, List.map_nil, spacedFrom]
    norm_num [frame_delay, FPS_TARGET]
  refine ⟨by decide, hsp, by decide, ?_⟩
  exact (recorder_thirty_ticks_one_sample ⟨some "a", false, [], 0, []⟩ "a" 0 31
      thirtyTicks [] rfl rfl (by decide) hsp (by decide) (by decide) trivial).1

lemma argmaxFirst_ge {W : Type} (l : List (W × ℚ)) (x : W × ℚ) (hx : x ∈ l) :
    ∃ q, argmaxFirst l = some q ∧ x.2 ≤ q.2 := by
  induction l with
  | nil => simp at hx
  | cons p ps ih =>
    cases hq : argmaxFirst ps with
    | none =>
      have hcons : argmaxFirst (p :: ps) = some p := by
        simp only [argmaxFirst, hq]
      cases hx with
      | head => exact ⟨x, hcons, le_refl _⟩
      | tail _ hmem =>
        obtain ⟨q, hq2, _⟩ := ih hmem
        rw [hq2] at hq
        cases hq
    | some q =>
      by_cases hlt : p.2 < q.2
      · have hcons : argmaxFirst (p :: ps) = some q := by
          simp only [argmaxFirst, hq, if_pos hlt]
        cases hx with
        | head => exact ⟨q, hcons, le_of_lt hlt⟩
        | tail _ hmem =>
          obtain ⟨q', hq', hle⟩ := ih hmem
          rw [hq'] at hq
          cases hq
          exact ⟨q, hcons, hle⟩
      · have hcons : argmaxFirst (p :: ps) = some p := by
          simp only [argmaxFirst, hq, if_neg hlt]
        cases hx with
        | head => exact ⟨x, hcons, le_refl _⟩
        | tail _ hmem =>
          obtain ⟨q', hq', hle⟩ := ih hmem
          rw [hq'] at hq
          cases hq
          exact ⟨p, hcons, le_trans hle (not_lt.mp hlt)⟩

lemma argmaxFirst_mem {W : Type} (l : List (W × ℚ)) (q : W × ℚ)
    (hq : argmaxFirst l = some q) : q ∈ l := by
  induction l generalizing q with
  | nil => cases hq
  | cons p ps ih =>
    cases hps : argmaxFirst ps with
    | none =>
      simp only [argmaxFirst, hps] at hq
      cases hq
      exact List.mem_cons_self _ _
    | some r =>
      simp only [argmaxFirst, hps] at hq
      by_cases hlt : p.2 < r.2
      · rw [if_pos hlt] at hq
        cases hq
        exact List.mem_cons_of_mem _ (ih _ hps)
      · rw [if_neg hlt] at hq
        cases hq
        exact List.mem_cons_self _ _

lemma argmaxAbove_eq_none {W : Type} (b : ℚ) (l : List (W × ℚ))
    (h : ∀ x ∈ l, x.2 ≤ b) : argmaxAbove b l = none := by
  induction l generalizing b with
  | nil => rfl
  | cons p ps ih =>
    have hp := h p (List.mem_cons_self p ps)
    simp only [argmaxAbove, if_neg (not_lt.mpr hp)]
    exact ih b fun x hx => h x (List.mem_cons_of_mem p hx)

lemma argmaxAbove_eq_argmaxFirst {W : Type} (b : ℚ) (l : List (W × ℚ))
    (h : ∃ x ∈ l, b < x.2) : argmaxAbove b l = argmaxFirst l := by
  induction l generalizing b with
  | nil =>
    obtain ⟨x, hx, _⟩ := h
    simp at hx
  | cons p ps ih =>
    by_cases hb : b < p.2
    · by_cases hps : ∃ x ∈ ps, p.2 < x.2
      · have h1 := ih p.2 hps
        obtain ⟨x, hxm, hxgt⟩ := hps
        obtain ⟨q, hq, hle⟩ := argmaxFirst_ge ps x hxm
        have hq2 : argmaxAbove p.2 ps = some q := by rw [h1, hq]
        have hpq : p.2 < q.2 := lt_of_lt_of_le hxgt hle
        simp only [argmaxAbove, argmaxFirst, if_pos hb, hq2, hq, if_pos hpq]
      · push_neg at hps
        have hnone : argmaxAbove p.2 ps = none := argmaxAbove_eq_none p.2 ps hps
        cases hq : argmaxFirst ps with
        | none => simp only [argmaxAbove, argmaxFirst, if_pos hb, hnone, hq]
        | some q =>
          have hqm : q ∈ ps := argmaxFirst_mem ps q hq
          have hnq : ¬ (p.2 < q.2) := not_lt.mpr (hps q hqm)
          simp only [argmaxAbove, argmaxFirst, if_pos hb, hnone, hq, if_neg hnq]
    · obtain ⟨x, hxm, hxgt⟩ := h
      have hxps : x ∈ ps := by
        cases hxm with
        | head => exact absurd hxgt hb
        | tail _ hm => exact hm
      have h1 := ih b ⟨x, hxps, hxgt⟩
      obtain ⟨q, hq, hle⟩ := argmaxFirst_ge ps x hxps
      have hpq : p.2 < q.2 :=
        lt_of_le_of_lt (not_lt.mp hb) (lt_of_lt_of_le hxgt hle)
      simp only [argmaxAbove, argmaxFirst, if_neg hb, h1, hq, if_pos hpq]

lemma trainLoop_checkpoint {W : Type} (l : List (W × ℚ)) (s : TrainState W) :
    (trainLoop l s).1.checkpoint =
      (match argmaxAbove s.best_val_acc (trainLoop l s).2 with
       | some q => some q.1
       | none => s.checkpoint) := by
  induction l generalizing s with
  | nil => rfl
  | cons o rest ih =>
    by_cases hv : s.best_val_acc < o.2
    · have hs1 : trainStep o s = ⟨o.2, 0, some o.1, o.1⟩ := by
        unfold trainStep
        rw [if_pos hv]
      have hloop : trainLoop (o :: rest) s =
          ((trainLoop rest (⟨o.2, 0, some o.1, o.1⟩ : TrainState W)).1,
           o :: (trainLoop rest (⟨o.2, 0, some o.1, o.1⟩ : TrainState W)).2) := by
        simp only [trainLoop, hs1]
        rw [if_neg (by simp [patience])]
      rw [hloop, ih]
      have hra : argmaxAbove s.best_val_acc
          (o :: (trainLoop rest (⟨o.2, 0, some o.1, o.1⟩ : TrainState W)).2)
          = (match argmaxAbove o.2
                (trainLoop rest (⟨o.2, 0, some o.1, o.1⟩ : TrainState W)).2 with
             | some q => some q
             | none => some o) := by
        simp only [argmaxAbove, if_pos hv]
      rw [hra]
      cases argmaxAbove o.2 (trainLoop rest (⟨o.2, 0, some o.1, o.1⟩ : TrainState W)).2 <;>
        rfl
    · have hs1 : trainStep o s =
          ⟨s.best_val_acc, s.patience_counter + 1, s.checkpoint, o.1⟩ := by
        unfold trainStep
        rw [if_neg hv]
      by_cases hp : patience ≤ s.patience_counter + 1
      · have hloop : trainLoop (o :: rest) s =
            ((⟨s.best_val_acc, s.patience_counter + 1, s.checkpoint, o.1⟩ :
                TrainState W), [o]) := by
          simp only [trainLoop, hs1]
          rw [if_pos hp]
        rw [hloop]
        simp only [argmaxAbove, if_neg hv]
      · have hloop : trainLoop (o :: rest) s =
            ((trainLoop rest (⟨s.best_val_acc, s.patience_counter + 1, s.checkpoint,
                o.1⟩ : TrainState W)).1,
             o :: (trainLoop rest (⟨s.best_val_acc, s.patience_counter + 1,
                s.checkpoint, o.1⟩ : TrainState W)).2) := by
          simp only [trainLoop, hs1]
          rw [if_neg hp]
        rw [hloop, ih]
        simp only [argmaxAbove, if_neg hv]

/-- C9: the weights written to `sign_model.pt` — the file the ONNX
exporter loads — are those of the best-validation-accuracy checkpoint
observed during the (possibly early-stopped) run, i.e. the earliest
executed epoch attaining the maximum validation accuracy, not the
final-epoch weights; the best checkpoint is reloaded into the model
before the final save. -/
theorem exported_weights_are_best_checkpoint {W : Type} (w0 : W)
    (outs : List (W × ℚ))
    (h : ∃ o ∈ (trainRun w0 outs).2, 0 < o.2) :
    sign_model_pt w0 outs = (argmaxFirst (trainRun w0 outs).2).map Prod.fst ∧
    exporterWeights w0 outs = (argmaxFirst (trainRun w0 outs).2).map Prod.fst := by
  have h' : ∃ o ∈ (trainLoop (outs.take EPOCHS) (initTrainState w0)).2, 0 < o.2 := h
  have hcp := trainLoop_checkpoint (outs.take EPOCHS) (initTrainState w0)
  have hax : argmaxAbove (initTrainState w0).best_val_acc
      (trainLoop (outs.take EPOCHS) (initTrainState w0)).2
      = argmaxFirst (trainLoop (outs.take EPOCHS) (initTrainState w0)).2 :=
    argmaxAbove_eq_argmaxFirst _ _ h'
  rw [hax] at hcp
  have hfinal : (trainLoop (outs.take EPOCHS) (initTrainState w0)).1.checkpoint
      = (argmaxFirst (trainLoop (outs.take EPOCHS) (initTrainState w0)).2).map
          Prod.fst := by
    rw [hcp]
    cases argmaxFirst (trainLoop (outs.take EPOCHS) (initTrainState w0)).2 <;> rfl
  exact ⟨hfinal, hfinal⟩

theorem exported_weights_are_best_checkpoint_witness :
    (∃ o ∈ (trainRun (0 : Nat) [(1, 1), (2, 2)]).2, 0 < o.2) ∧
    sign_model_pt (0 : Nat) [(1, 1), (2, 2)] = some 2 := by
  have htake : List.take EPOCHS [((1 : Nat), (1 : ℚ)), (2, 2)] = [(1, 1), (2, 2)] :=
    List.take_of_length_le (by norm_num [EPOCHS])
  have htrace : (trainRun (0 : Nat) [(1, 1), (2, 2)]).2 = [(1, 1), (2, 2)] := by
    unfold trainRun
    rw [htake]
    norm_num [trainLoop, trainStep, initTrainState, patience]
  have h : ∃ o ∈ (trainRun (0 : Nat) [(1, 1), (2, 2)]).2, 0 < o.2 := by
    rw [htrace]
    refine ⟨(2, 2), by norm_num, by norm_num⟩
  refine ⟨h, ?_⟩
  have hbest := (exported_weights_are_best_checkpoint (0 : Nat) [(1, 1), (2, 2)] h).1
  rw [hbest, htrace]
  norm_num [argmaxFirst]

end SignVision
